import Mathlib

/-!
Shallow embedding of the scss-bundle core (`src/bundler.ts`) and proofs about
its specification claims.

Modelling conventions:
* The filesystem is a static association list from absolute path to content.
  `fs.access`/`fs.readFile` succeed exactly on the paths present in it.
* JavaScript maps (`FileRegistry`, `usedImports`, `importsByFile`) are
  association lists.  `FileRegistry` values are `Option String` because the
  TypeScript type is `string | undefined` and the code tests `== null`.
* JavaScript numbers reached by `usedImports[key]++` on a missing key become
  `NaN`; the type `JsNum` models this (`NaN > 1` is false, `NaN != null` is
  true).
* `path.resolve(p)` on an already absolute, normalized path is the identity;
  `path.resolve(dir, rel)` and `path.join(dir, rel)` concatenate with a slash.
  All example paths below stay inside this regime.
* The two regular expressions `IMPORT_PATTERN` and `COMMENTED_IMPORT_PATTERN`
  are implemented as executable matchers with JavaScript semantics: leftmost
  match, greedy `(.+)` with backtracking, `.` not matching a newline, global
  flag restarting after the end of a match.
* Asynchronous code is modelled by the cooperative sequential schedule
  (entries processed in order, each file depth-first), which the spec admits
  as an equally valid implementation of the concurrency contract.
* The state carries ghost instrumentation fields (`readLog`, `encounterLog`,
  `globCalls`) that record observable events (import-target reads, found
  import-target encounters, external glob invocations) without influencing
  behaviour.
* Recursion over the import graph is fuel-bounded; `none` models the
  divergence a cyclic import graph causes in the original program.
-/

/-! ## Association lists -/

def alGet {β : Type} : List (String × β) → String → Option β
  | [], _ => none
  | (k, v) :: rest, k' => if k = k' then some v else alGet rest k'

def alSet {β : Type} : List (String × β) → String → β → List (String × β)
  | [], k, v => [(k, v)]
  | (k0, v0) :: rest, k, v =>
    if k0 = k then (k, v) :: rest else (k0, v0) :: alSet rest k v

theorem alGet_set_self {β : Type} (l : List (String × β)) (k : String) (v : β) :
    alGet (alSet l k v) k = some v := by
  induction l with
  | nil => simp [alGet, alSet]
  | cons h t ih =>
    obtain ⟨k0, v0⟩ := h
    by_cases hk : k0 = k
    · simp [alSet, hk, alGet]
    · simp [alSet, hk, alGet, ih]

theorem alGet_set_ne {β : Type} (l : List (String × β)) (k k' : String) (v : β)
    (h : k ≠ k') : alGet (alSet l k v) k' = alGet l k' := by
  induction l with
  | nil => simp [alGet, alSet, h]
  | cons hd t ih =>
    obtain ⟨k0, v0⟩ := hd
    by_cases hk : k0 = k
    · subst hk
      simp [alSet, alGet, h]
    · simp only [alSet, if_neg hk]
      by_cases hk' : k0 = k'
      · simp [alGet, hk']
      · simp [alGet, hk', ih]

/-! ## Occurrence counting for ghost logs -/

def cnt (p : String) : List String → Nat
  | [] => 0
  | x :: xs => (if x = p then 1 else 0) + cnt p xs

theorem cnt_append (p : String) (l l' : List String) :
    cnt p (l ++ l') = cnt p l + cnt p l' := by
  induction l with
  | nil => simp [cnt]
  | cons x xs ih => simp [cnt, ih]; omega

theorem cnt_singleton_self (p : String) : cnt p [p] = 1 := by simp [cnt]

theorem cnt_singleton_ne (p q : String) (h : q ≠ p) : cnt p [q] = 0 := by
  simp [cnt, h]

/-! ## Characters and strings -/

def quoteChar : Char := Char.ofNat 39

def dquoteChar : Char := Char.ofNat 34

def sqS : String := String.mk [quoteChar]

def dqS : String := String.mk [dquoteChar]

def semiChar : Char := Char.ofNat 59

def nlChar : Char := Char.ofNat 10

def isQuoteChar (c : Char) : Bool := c = quoteChar || c = dquoteChar

def containsSubstrAux (pat : List Char) : List Char → Bool
  | [] => pat.isEmpty
  | c :: rest => pat.isPrefixOf (c :: rest) || containsSubstrAux pat rest

/-- Model of JavaScript `s.indexOf(pat) !== -1`. -/
def containsSubstr (s pat : String) : Bool := containsSubstrAux pat.data s.data

/-! ## Path functions (models of the Node `path` module on absolute,
normalized inputs) -/

/-- Model of `path.resolve(p)` for an already absolute, normalized path. -/
def resolvePath (p : String) : String := p

/-- Model of `path.resolve(dir, rel)` for absolute `dir` and relative `rel`. -/
def pathResolve (dir rel : String) : String := dir ++ "/" ++ rel

/-- Model of `path.join(dir, rel)`. -/
def pathJoin (dir rel : String) : String := dir ++ "/" ++ rel

def slashChar : Char := Char.ofNat 47

/-- Model of `path.basename`: everything after the last slash. -/
def pathBasename (p : String) : String :=
  String.mk ((p.data.reverse.takeWhile (fun c => c ≠ slashChar)).reverse)

/-- Model of `path.dirname`: everything before the last slash. -/
def pathDirname (p : String) : String :=
  let cs := p.data
  let base := (cs.reverse.takeWhile (fun c => c ≠ slashChar)).reverse
  if base.length = cs.length then "."
  else
    let before := cs.take (cs.length - base.length - 1)
    if before.isEmpty then String.mk [slashChar] else String.mk before

/-! ## The two directive patterns of `bundler.ts`

`IMPORT_PATTERN = /@import ['"](.+)['"];/g` and
`COMMENTED_IMPORT_PATTERN = /\/\/@import '(.+)';/g`. -/

def FILE_EXTENSION : String := ".scss"

def importPrefixChars : List Char := "@import ".data

def commentedPrefixChars : List Char := "//@import ".data ++ [quoteChar]

/-- Length of the maximal newline-free prefix; `.` in a JavaScript regex does
not match a newline, so a `(.+)` group stays within it. -/
def lineLen (cs : List Char) : Nat := (cs.takeWhile (fun c => c ≠ nlChar)).length

/-- Can the group of `IMPORT_PATTERN` end right after `k` characters, i.e. is
position `k` a quote followed by a semicolon? -/
def importEndsAt (rest : List Char) (k : Nat) : Bool :=
  match rest.get? k, rest.get? (k + 1) with
  | some q, some s => isQuoteChar q && s = semiChar
  | _, _ => false

/-- Can the group of `COMMENTED_IMPORT_PATTERN` end right after `k`
characters, i.e. is position `k` a single quote followed by a semicolon? -/
def commentedEndsAt (rest : List Char) (k : Nat) : Bool :=
  match rest.get? k, rest.get? (k + 1) with
  | some q, some s => q = quoteChar && s = semiChar
  | _, _ => false

/-- Greedy search for the group length: the largest `k ≤ bound` with
`ends rest k`, matching the backtracking of a greedy `(.+)`. -/
def findGreedy (ends : List Char → Nat → Bool) (rest : List Char) : Nat → Option Nat
  | 0 => none
  | Nat.succ k => if ends rest (k + 1) then some (k + 1) else findGreedy ends rest k

/-- One attempt of `IMPORT_PATTERN` anchored at the start of `s`; on success
returns the matched text, the group, and the remaining input. -/
def matchImportAt (s : List Char) : Option (List Char × List Char × List Char) :=
  if importPrefixChars.isPrefixOf s then
    match s.drop 8 with
    | [] => none
    | q :: rest =>
      if isQuoteChar q then
        match findGreedy importEndsAt rest (lineLen rest) with
        | none => none
        | some k => some (s.take (8 + 1 + k + 2), rest.take k, s.drop (8 + 1 + k + 2))
      else none
  else none

def scanImportsAux : Nat → List Char → List (String × String)
  | 0, _ => []
  | _, [] => []
  | Nat.succ n, c :: rest =>
    match matchImportAt (c :: rest) with
    | some (m, g, r) => (String.mk m, String.mk g) :: scanImportsAux n r
    | none => scanImportsAux n rest

/-- All matches of `IMPORT_PATTERN` in `s`, as (matched text, group) pairs,
in appearance order, as `Helpers.getAllMatches(content, IMPORT_PATTERN)`
produces them. -/
def scanImports (s : String) : List (String × String) :=
  scanImportsAux s.data.length s.data

/-- One attempt of `COMMENTED_IMPORT_PATTERN` anchored at the start of `s`;
on success returns the remaining input after the match. -/
def matchCommentedAt (s : List Char) : Option (List Char) :=
  if commentedPrefixChars.isPrefixOf s then
    match findGreedy commentedEndsAt (s.drop 11) (lineLen (s.drop 11)) with
    | none => none
    | some k => some ((s.drop 11).drop (k + 2))
  else none

def stripCommentedAux : Nat → List Char → List Char
  | 0, s => s
  | _, [] => []
  | Nat.succ n, c :: rest =>
    match matchCommentedAt (c :: rest) with
    | some r => stripCommentedAux n r
    | none => c :: stripCommentedAux n rest

/-- Model of `content.replace(COMMENTED_IMPORT_PATTERN, "")`: removes every
match of the commented-import pattern. -/
def stripCommented (s : String) : String :=
  String.mk (stripCommentedAux s.data.length s.data)

def replaceFirstAux (pat repl : List Char) : List Char → List Char
  | [] => []
  | c :: rest =>
    if pat.isPrefixOf (c :: rest) then repl ++ (c :: rest).drop pat.length
    else c :: replaceFirstAux pat repl rest

/-- Model of JavaScript `s.replace(pat, repl)` with a string pattern:
replaces the first occurrence only. -/
def replaceFirst (s pat repl : String) : String :=
  String.mk (replaceFirstAux pat.data repl.data s.data)

/-! ## JavaScript numbers for the usage counter -/

/-- A value of `usedImports`: either a genuine count or `NaN` (the result of
`++` on a missing key, since `undefined + 1` is `NaN`). -/
inductive JsNum where
  | nan : JsNum
  | num : Nat → JsNum
deriving DecidableEq, Repr

/-- Model of `this.usedImports[key]++`. -/
def uIncr (u : List (String × JsNum)) (k : String) : List (String × JsNum) :=
  match alGet u k with
  | none => alSet u k JsNum.nan
  | some JsNum.nan => alSet u k JsNum.nan
  | some (JsNum.num n) => alSet u k (JsNum.num (n + 1))

/-- Model of `timesUsed != null && timesUsed > 1`. -/
def timesUsedOk : Option JsNum → Bool
  | some (JsNum.num n) => decide (1 < n)
  | _ => false

/-! ## Result and state -/

inductive BundleResult where
  | mk : (filePath : String) → (found : Bool) → (bundledContent : Option String) →
      (deduped : Bool) → (imports : Option (List BundleResult)) → BundleResult

def BundleResult.filePath : BundleResult → String
  | .mk p _ _ _ _ => p

def BundleResult.found : BundleResult → Bool
  | .mk _ f _ _ _ => f

def BundleResult.bundledContent : BundleResult → Option String
  | .mk _ _ c _ _ => c

def BundleResult.deduped : BundleResult → Bool
  | .mk _ _ _ d _ => d

def BundleResult.importsOpt : BundleResult → Option (List BundleResult)
  | .mk _ _ _ _ i => i

/-- Model of `currentImport.deduped = true`. -/
def setDeduped : BundleResult → BundleResult
  | .mk p f c _ i => .mk p f c true i

mutual

/-- All paths of nodes marked `deduped:true` anywhere in a result tree. -/
def dedupedPaths : BundleResult → List String
  | .mk p _ _ d i => (if d then [p] else []) ++ dedupedPathsOpt i

def dedupedPathsOpt : Option (List BundleResult) → List String
  | none => []
  | some l => dedupedPathsList l

def dedupedPathsList : List BundleResult → List String
  | [] => []
  | r :: rs => dedupedPaths r ++ dedupedPathsList rs

end

structure ImportData where
  importString : String
  path : String
  fullPath : String
  found : Bool

/-- Engine state: the three caches of the `Bundler` class plus ghost
instrumentation (`readLog`: import-target `fs.readFile` calls,
`encounterLog`: found import-target encounters, `globCalls`: external glob
library invocations). -/
structure BundlerState where
  fileRegistry : List (String × Option String)
  usedImports : List (String × JsNum)
  importsByFile : List (String × List BundleResult)
  readLog : List String
  encounterLog : List String
  globCalls : Nat

def initState : BundlerState := ⟨[], [], [], [], [], 0⟩

/-- Model of `this.fileRegistry[k] == null` being false, i.e. the defined
value: key present with a defined string. -/
def regGet (st : BundlerState) (k : String) : Option String :=
  match alGet st.fileRegistry k with
  | some (some v) => some v
  | _ => none

def fsRead (fs : List (String × String)) (p : String) : Option String := alGet fs p

/-! ## Import resolution (lines 85-118 of `bundler.ts`) -/

/-- Resolution of one raw import match `(importString, rawPath)` against the
filesystem, from the body of the `map` at lines 85-118: append `.scss` when
`indexOf` does not find it, try the plain candidate, then the underscored
partial, else report not found with the non-underscored path. -/
def resolveImport (fs : List (String × String)) (dirname : String)
    (m : String × String) : ImportData :=
  let importName := if containsSubstr m.2 FILE_EXTENSION then m.2 else m.2 ++ FILE_EXTENSION
  let fullPath := pathResolve dirname importName
  if (fsRead fs fullPath).isSome then
    { importString := m.1, path := importName, fullPath := fullPath, found := true }
  else
    let underscoredFilePath :=
      pathJoin (pathDirname fullPath) ("_" ++ pathBasename fullPath)
    if (fsRead fs underscoredFilePath).isSome then
      { importString := m.1, path := importName, fullPath := underscoredFilePath, found := true }
    else
      { importString := m.1, path := importName, fullPath := fullPath, found := false }

/-! ## The bundle loop (lines 130-211 of `bundler.ts`) -/

/-- The debug comment substituted for an unresolved import (line 189);
`os.EOL` is a newline on the modelled platform. -/
def notFoundMarker (importString : String) : String :=
  "/*** IMPORTED FILE NOT FOUND ***/" ++ String.mk [nlChar] ++ importString ++ "/*** --- ***/"

structure LoopAcc where
  st : BundlerState
  content : String
  imports : List BundleResult

/-- Ghost logging of the `fs.readFile` at line 147 (also an encounter of the
path as a found import target). -/
def logRead (st : BundlerState) (p : String) : BundlerState :=
  { st with readLog := st.readLog ++ [p], encounterLog := st.encounterLog ++ [p] }

/-- Lines 152-158: record the recursive bundled content in the registry and
initialise the usage counter when absent. -/
def registerImport (st : BundlerState) (p : String) (r : BundleResult) : BundlerState :=
  let st1 := { st with fileRegistry := alSet st.fileRegistry p r.bundledContent }
  if (alGet st1.usedImports p).isNone then
    { st1 with usedImports := alSet st1.usedImports p (JsNum.num 1) }
  else st1

/-- Lines 163-167: increment the usage counter of an already registered
target (ghost-logging the encounter). -/
def incrementUsage (st : BundlerState) (p : String) : BundlerState :=
  { st with usedImports := uIncr st.usedImports p,
            encounterLog := st.encounterLog ++ [p] }

/-- Lines 137-181: classify the import and produce the child result together
with the updated state; `none` models divergence of the recursive call. -/
def importBranch (fs : List (String × String))
    (bundleRec : String → String → BundlerState → Option (BundlerState × BundleResult))
    (st : BundlerState) (imp : ImportData) : Option (BundlerState × BundleResult) :=
  if imp.found = false then
    some (st, BundleResult.mk imp.fullPath false none false none)
  else if (regGet st imp.fullPath).isNone then
    match fsRead fs imp.fullPath with
    | none => none
    | some impContent =>
      match bundleRec imp.fullPath impContent (logRead st imp.fullPath) with
      | none => none
      | some (st2, bundledImport) =>
        some (registerImport st2 imp.fullPath bundledImport, bundledImport)
  else
    some (incrementUsage st imp.fullPath,
      BundleResult.mk imp.fullPath true none false (alGet st.importsByFile imp.fullPath))

/-- Lines 183-207: fetch the substitution text from the registry (debug
marker when absent), apply the dedup decision (which resets the whole working
content to the empty string), and replace the first occurrence of the
directive text. -/
def substituteStep (dedupeFiles : List String) (st : BundlerState) (imp : ImportData)
    (content : String) (cur : BundleResult) : String × BundleResult :=
  let contentToReplace :=
    match regGet st imp.fullPath with
    | some c => c
    | none => notFoundMarker imp.importString
  let fire := (!dedupeFiles.isEmpty) && (decide (imp.fullPath ∈ dedupeFiles)) &&
    timesUsedOk (alGet st.usedImports imp.fullPath)
  let content1 := if fire then "" else content
  let cur1 := if fire then setDeduped cur else cur
  (replaceFirst content1 imp.importString contentToReplace, cur1)

/-- One iteration of the `for (const imp of imports)` loop. -/
def importStep (fs : List (String × String)) (dedupeFiles : List String)
    (bundleRec : String → String → BundlerState → Option (BundlerState × BundleResult))
    (acc : Option LoopAcc) (imp : ImportData) : Option LoopAcc :=
  match acc with
  | none => none
  | some a =>
    match importBranch fs bundleRec a.st imp with
    | none => none
    | some (st1, cur) =>
      let sc := substituteStep dedupeFiles st1 imp a.content cur
      some (LoopAcc.mk st1 sc.1 (a.imports ++ [sc.2]))

/-- Lines 80-82: seed the registry with the raw (comment-stripped) content
when the path has no defined entry yet. -/
def seedState (st : BundlerState) (fp content : String) : BundlerState :=
  if (regGet st fp).isNone then
    { st with fileRegistry := alSet st.fileRegistry fp (some content) }
  else st

/-- Lines 213-221: record the child list in `importsByFile` and build the
returned result. -/
def finishBundle (fp : String) (a : LoopAcc) : BundlerState × BundleResult :=
  ({ a.st with importsByFile := alSet a.st.importsByFile fp a.imports },
   BundleResult.mk fp true (some a.content) false (some a.imports))

/-- The private recursive `bundle` method (lines 67-222), fuel-bounded. -/
def bundle (fs : List (String × String)) :
    Nat → String → String → BundlerState → List String →
    Option (BundlerState × BundleResult)
  | 0, _, _, _, _ => none
  | Nat.succ fuel, filePath0, content0, st0, dedupeFiles =>
    let content1 := stripCommented content0
    let fp := resolvePath filePath0
    let st1 := seedState st0 fp content1
    let imps := (scanImports content1).map (resolveImport fs (pathDirname fp))
    (imps.foldl
        (importStep fs dedupeFiles (fun p c s => bundle fs fuel p c s dedupeFiles))
        (some (LoopAcc.mk st1 content1 []))).map (finishBundle fp)

/-! ## Public interface (lines 41-65 and 224-243) -/

/-- `globFilesOrEmpty` (lines 224-243): empty pattern list short-circuits to
an empty dedupe set; otherwise the external glob library runs (ghost-counted)
and its failure is an exception; results are passed through `path.resolve`. -/
def globFilesOrEmpty (globExpand : List String → Except String (List String))
    (st : BundlerState) (globsList : List String) :
    BundlerState × Except String (List String) :=
  if globsList.isEmpty then (st, Except.ok [])
  else
    let st1 := { st with globCalls := st.globCalls + 1 }
    match globExpand globsList with
    | Except.error e => (st1, Except.error e)
    | Except.ok files => (st1, Except.ok (files.map resolvePath))

/-- The public `Bundle` (lines 49-65): access and read the entry file and
expand the dedupe globs inside one `try`; any failure there is caught and
reported as a not-found result for the entry. -/
def Bundle (fs : List (String × String))
    (globExpand : List String → Except String (List String))
    (fuel : Nat) (st : BundlerState) (file : String) (dedupeGlobs : List String) :
    Option (BundlerState × BundleResult) :=
  match fsRead fs file with
  | none => some (st, BundleResult.mk file false none false none)
  | some content =>
    let g := globFilesOrEmpty globExpand st dedupeGlobs
    match g.2 with
    | Except.error _ => some (g.1, BundleResult.mk file false none false none)
    | Except.ok dedupeFiles => bundle fs fuel file content g.1 dedupeFiles

/-- The public `BundleAll` (lines 41-47), as the cooperative sequential
schedule of the per-entry `Bundle` calls, results in input order. -/
def BundleAll (fs : List (String × String))
    (globExpand : List String → Except String (List String))
    (fuel : Nat) (st : BundlerState) (files : List String) (dedupeGlobs : List String) :
    Option (BundlerState × List BundleResult) :=
  match files with
  | [] => some (st, [])
  | f :: rest =>
    match Bundle fs globExpand fuel st f dedupeGlobs with
    | none => none
    | some (st1, r) =>
      (BundleAll fs globExpand fuel st1 rest dedupeGlobs).map
        (fun p => (p.1, r :: p.2))

def insertAtPos {α : Type} : Nat → α → List α → List α
  | 0, a, l => a :: l
  | _ + 1, a, [] => [a]
  | n + 1, a, x :: xs => x :: insertAtPos n a xs

/-! ## Run invariants

`StInv` packages the single-read guarantee (each logged import-target read is
unique and backed by a registry entry), the relation between the usage
counter and the ghost encounter log, and the fact that every `deduped` node
stored in `importsByFile` corresponds to a path encountered at least twice.
`PreInv` is the weakening that holds when a file has just been logged as read
but not yet seeded. -/

def StInv (st : BundlerState) : Prop :=
  (∀ p, cnt p st.readLog ≤ 1) ∧
  (∀ p, 0 < cnt p st.readLog → (regGet st p).isSome) ∧
  (∀ p n, alGet st.usedImports p = some (JsNum.num n) → n ≤ cnt p st.encounterLog) ∧
  (∀ k l p, alGet st.importsByFile k = some l → p ∈ dedupedPathsList l →
    2 ≤ cnt p st.encounterLog)

def PreInv (st : BundlerState) (fp : String) : Prop :=
  (∀ p, cnt p st.readLog ≤ 1) ∧
  (∀ p, 0 < cnt p st.readLog → p = fp ∨ (regGet st p).isSome) ∧
  (∀ p n, alGet st.usedImports p = some (JsNum.num n) → n ≤ cnt p st.encounterLog) ∧
  (∀ k l p, alGet st.importsByFile k = some l → p ∈ dedupedPathsList l →
    2 ≤ cnt p st.encounterLog)

theorem StInv.toPre {st : BundlerState} (h : StInv st) (fp : String) : PreInv st fp :=
  ⟨h.1, fun p hp => Or.inr (h.2.1 p hp), h.2.2.1, h.2.2.2⟩

theorem StInv_init : StInv initState := by
  refine ⟨?_, ?_, ?_, ?_⟩
  · intro p; simp [initState, cnt]
  · intro p hp; simp [initState, cnt] at hp
  · intro p n h; simp [initState, alGet] at h
  · intro k l p h; simp [initState, alGet] at h

def RegFrame (st st' : BundlerState) : Prop :=
  ∀ k, (regGet st k).isSome → regGet st' k = regGet st k

theorem regFrame_refl (st : BundlerState) : RegFrame st st := fun _ _ => Eq.refl _

theorem regFrame_trans {a b c : BundlerState} (h1 : RegFrame a b) (h2 : RegFrame b c) :
    RegFrame a c := by
  intro k hk
  have hb := h1 k hk
  have hbsome : (regGet b k).isSome := by rw [hb]; exact hk
  rw [h2 k hbsome, hb]

def CountMono (st st' : BundlerState) : Prop :=
  ∀ p, cnt p st.encounterLog ≤ cnt p st'.encounterLog

theorem countMono_refl (st : BundlerState) : CountMono st st := fun _ => Nat.le_refl _

theorem countMono_trans {a b c : BundlerState} (h1 : CountMono a b) (h2 : CountMono b c) :
    CountMono a c := fun p => Nat.le_trans (h1 p) (h2 p)

/-! ## Small facts about the pieces of the loop -/

theorem dedupedPathsList_append (l : List BundleResult) (r : BundleResult) :
    dedupedPathsList (l ++ [r]) = dedupedPathsList l ++ dedupedPaths r := by
  induction l with
  | nil => simp [dedupedPathsList]
  | cons x xs ih => simp [dedupedPathsList, ih]

theorem mem_dedupedPaths_setDeduped {q : String} {r : BundleResult}
    (h : q ∈ dedupedPaths (setDeduped r)) :
    q = r.filePath ∨ q ∈ dedupedPaths r := by
  cases r with
  | mk p f c d i =>
    simp [setDeduped, dedupedPaths, BundleResult.filePath] at h ⊢
    rcases h with h | h
    · exact Or.inl h
    · right; right; exact h

theorem timesUsedOk_some {o : Option JsNum} (h : timesUsedOk o = true) :
    ∃ n, o = some (JsNum.num n) ∧ 1 < n := by
  cases o with
  | none => simp [timesUsedOk] at h
  | some j =>
    cases j with
    | nan => simp [timesUsedOk] at h
    | num n => exact ⟨n, Eq.refl _, by simpa [timesUsedOk] using h⟩

theorem regGet_mk (fr : List (String × Option String)) (u : List (String × JsNum))
    (i : List (String × List BundleResult)) (rl el : List String) (g : Nat) (k : String) :
    regGet ⟨fr, u, i, rl, el, g⟩ k =
      (match alGet fr k with
       | some (some v) => some v
       | _ => none) := Eq.refl _

theorem regGet_set_ne (st : BundlerState) (p k : String) (v : Option String)
    (h : p ≠ k) :
    regGet { st with fileRegistry := alSet st.fileRegistry p v } k = regGet st k := by
  simp [regGet, alGet_set_ne _ _ _ _ h]

theorem regGet_set_self (st : BundlerState) (p : String) (s : String) :
    regGet { st with fileRegistry := alSet st.fileRegistry p (some s) } p = some s := by
  simp [regGet, alGet_set_self]

/-! ### seedState -/

theorem seedState_fields (st : BundlerState) (fp c : String) :
    (seedState st fp c).usedImports = st.usedImports ∧
    (seedState st fp c).importsByFile = st.importsByFile ∧
    (seedState st fp c).readLog = st.readLog ∧
    (seedState st fp c).encounterLog = st.encounterLog ∧
    (seedState st fp c).globCalls = st.globCalls := by
  unfold seedState
  by_cases h : (regGet st fp).isNone <;> simp [h]

theorem regGet_seedState_ne (st : BundlerState) (fp c k : String) (h : fp ≠ k) :
    regGet (seedState st fp c) k = regGet st k := by
  unfold seedState
  by_cases hs : (regGet st fp).isNone
  · simp only [hs, if_true]
    exact regGet_set_ne st fp k (some c) h
  · simp [hs]

theorem regGet_seedState_self (st : BundlerState) (fp c : String) :
    (regGet (seedState st fp c) fp).isSome ∧
    (regGet st fp = none → regGet (seedState st fp c) fp = some c) := by
  unfold seedState
  by_cases hs : (regGet st fp).isNone
  · simp only [hs, if_true]
    constructor
    · rw [regGet_set_self]; exact Eq.refl _
    · intro _; exact regGet_set_self st fp c
  · simp only [hs, if_false]
    constructor
    · cases hh : regGet st fp with
      | none => rw [hh] at hs; simp at hs
      | some v => simp [hh]
    · intro hnone; rw [hnone] at hs; simp at hs

theorem seedState_frame (st : BundlerState) (fp c : String) :
    RegFrame st (seedState st fp c) := by
  intro k hk
  by_cases h : fp = k
  · subst h
    unfold seedState
    have : ¬ (regGet st fp).isNone := by
      cases hh : regGet st fp with
      | none => rw [hh] at hk; simp at hk
      | some v => simp
    simp [this]
  · exact regGet_seedState_ne st fp c k h

theorem StInv_seedState {st : BundlerState} {fp : String} (c : String)
    (h : PreInv st fp) : StInv (seedState st fp c) := by
  obtain ⟨h1, h2, h3, h4⟩ := h
  obtain ⟨hu, hi, hr, he, hg⟩ := seedState_fields st fp c
  refine ⟨?_, ?_, ?_, ?_⟩
  · intro p; rw [hr]; exact h1 p
  · intro p hp
    rw [hr] at hp
    rcases h2 p hp with heq | hsome
    · subst heq
      exact (regGet_seedState_self st p c).1
    · rw [seedState_frame st fp c p hsome]; exact hsome
  · intro p n hpn
    rw [hu] at hpn; rw [he]; exact h3 p n hpn
  · intro k l p hk hp
    rw [hi] at hk; rw [he]; exact h4 k l p hk hp

/-! ### logRead -/

theorem logRead_fields (st : BundlerState) (p : String) :
    (logRead st p).fileRegistry = st.fileRegistry ∧
    (logRead st p).usedImports = st.usedImports ∧
    (logRead st p).importsByFile = st.importsByFile ∧
    (logRead st p).globCalls = st.globCalls := by
  simp [logRead]

theorem regGet_logRead (st : BundlerState) (p k : String) :
    regGet (logRead st p) k = regGet st k := Eq.refl _

theorem PreInv_logRead {st : BundlerState} {p : String}
    (h : StInv st) (hreg : regGet st p = none) : PreInv (logRead st p) p := by
  obtain ⟨h1, h2, h3, h4⟩ := h
  have hzero : cnt p st.readLog = 0 := by
    by_contra hne
    have hpos : 0 < cnt p st.readLog := Nat.pos_of_ne_zero hne
    have := h2 p hpos
    rw [hreg] at this
    simp at this
  refine ⟨?_, ?_, ?_, ?_⟩
  · intro q
    show cnt q (st.readLog ++ [p]) ≤ 1
    rw [cnt_append]
    by_cases hq : q = p
    · subst hq
      rw [hzero, cnt_singleton_self]
    · rw [cnt_singleton_ne q p (fun hh => hq hh.symm)]
      exact Nat.le_trans (Nat.le_of_eq (Nat.add_zero _)) (h1 q)
  · intro q hq
    show q = p ∨ (regGet (logRead st p) q).isSome
    rw [show (logRead st p).readLog = st.readLog ++ [p] from Eq.refl _, cnt_append] at hq
    by_cases hqp : q = p
    · exact Or.inl hqp
    · rw [cnt_singleton_ne q p (fun hh => hqp hh.symm)] at hq
      right
      rw [regGet_logRead]
      exact h2 q (by omega)
  · intro q n hq
    show n ≤ cnt q (st.encounterLog ++ [p])
    rw [cnt_append]
    exact Nat.le_trans (h3 q n hq) (Nat.le_add_right _ _)
  · intro k l q hk hq
    show 2 ≤ cnt q (st.encounterLog ++ [p])
    rw [cnt_append]
    exact Nat.le_trans (h4 k l q hk hq) (Nat.le_add_right _ _)

/-! ### registerImport -/

theorem registerImport_unfold (st : BundlerState) (p : String) (r : BundleResult) :
    registerImport st p r =
      (if (alGet st.usedImports p).isNone then
        { st with fileRegistry := alSet st.fileRegistry p r.bundledContent,
                  usedImports := alSet st.usedImports p (JsNum.num 1) }
       else { st with fileRegistry := alSet st.fileRegistry p r.bundledContent }) := by
  unfold registerImport
  by_cases h : (alGet st.usedImports p).isNone <;> simp [h]

theorem registerImport_fields (st : BundlerState) (p : String) (r : BundleResult) :
    (registerImport st p r).readLog = st.readLog ∧
    (registerImport st p r).encounterLog = st.encounterLog ∧
    (registerImport st p r).importsByFile = st.importsByFile ∧
    (registerImport st p r).globCalls = st.globCalls := by
  rw [registerImport_unfold]
  by_cases h : (alGet st.usedImports p).isNone <;> simp [h]

theorem regGet_registerImport (st : BundlerState) (p : String) (r : BundleResult)
    (k : String) :
    regGet (registerImport st p r) k =
      regGet { st with fileRegistry := alSet st.fileRegistry p r.bundledContent } k := by
  rw [registerImport_unfold]
  by_cases h : (alGet st.usedImports p).isNone <;> simp [h, regGet]

theorem registerImport_usedImports (st : BundlerState) (p : String) (r : BundleResult) :
    ((alGet st.usedImports p = none) ∧
      (registerImport st p r).usedImports = alSet st.usedImports p (JsNum.num 1)) ∨
    ((alGet st.usedImports p).isSome = true ∧
      (registerImport st p r).usedImports = st.usedImports) := by
  rw [registerImport_unfold]
  by_cases h : (alGet st.usedImports p).isNone
  · left
    exact ⟨Option.isNone_iff_eq_none.mp h, by simp [h]⟩
  · right
    constructor
    · cases hh : alGet st.usedImports p with
      | none => rw [hh] at h; simp at h
      | some v => simp
    · simp [h]

/-! ### incrementUsage -/

theorem alGet_uIncr (u : List (String × JsNum)) (k q : String) :
    alGet (uIncr u k) q =
      if k = q then
        (match alGet u k with
         | none => some JsNum.nan
         | some JsNum.nan => some JsNum.nan
         | some (JsNum.num n) => some (JsNum.num (n + 1)))
      else alGet u q := by
  by_cases hkq : k = q
  · subst hkq
    unfold uIncr
    cases h : alGet u k with
    | none => simp [alGet_set_self]
    | some j => cases j <;> simp [alGet_set_self]
  · unfold uIncr
    cases h : alGet u k with
    | none => simp [hkq, alGet_set_ne _ _ _ _ hkq]
    | some j => cases j <;> simp [hkq, alGet_set_ne _ _ _ _ hkq]

theorem incrementUsage_fields (st : BundlerState) (p : String) :
    (incrementUsage st p).fileRegistry = st.fileRegistry ∧
    (incrementUsage st p).importsByFile = st.importsByFile ∧
    (incrementUsage st p).readLog = st.readLog ∧
    (incrementUsage st p).encounterLog = st.encounterLog ++ [p] ∧
    (incrementUsage st p).globCalls = st.globCalls := by
  simp [incrementUsage]

theorem regGet_incrementUsage (st : BundlerState) (p k : String) :
    regGet (incrementUsage st p) k = regGet st k := Eq.refl _

/-! ### The per-iteration contract -/

def BundlePost (st : BundlerState) (fp content : String) (st' : BundlerState)
    (r : BundleResult) : Prop :=
  StInv st' ∧ RegFrame st st' ∧ CountMono st st' ∧
  st'.globCalls = st.globCalls ∧
  r.filePath = fp ∧ r.found = true ∧ (∃ s, r.bundledContent = some s) ∧
  (∃ l, r.importsOpt = some l ∧ alGet st'.importsByFile fp = some l) ∧
  (∀ p, p ∈ dedupedPaths r → 2 ≤ cnt p st'.encounterLog) ∧
  (regGet st fp = none → regGet st' fp = some (stripCommented content))

theorem dedupedPaths_notFound (p : String) :
    dedupedPaths (BundleResult.mk p false none false none) = [] := by
  simp [dedupedPaths, dedupedPathsOpt]

theorem dedupedPaths_hit (p : String) (c : Option String)
    (io : Option (List BundleResult)) :
    dedupedPaths (BundleResult.mk p true c false io) = dedupedPathsOpt io := by
  simp [dedupedPaths]

theorem substituteStep_snd (d : List String) (st : BundlerState) (imp : ImportData)
    (content : String) (cur : BundleResult) :
    (substituteStep d st imp content cur).2 = cur ∨
    ((substituteStep d st imp content cur).2 = setDeduped cur ∧
      timesUsedOk (alGet st.usedImports imp.fullPath) = true) := by
  unfold substituteStep
  by_cases h : ((!d.isEmpty) && (decide (imp.fullPath ∈ d)) &&
      timesUsedOk (alGet st.usedImports imp.fullPath)) = true
  · right
    refine ⟨by simp [h], ?_⟩
    simp only [Bool.and_eq_true] at h
    exact h.2
  · left
    simp [h]

theorem importBranch_post {fs : List (String × String)} {d : List String} {fuel : Nat}
    (IH : ∀ fp c st st' r, bundle fs fuel fp c st d = some (st', r) →
      PreInv st fp → BundlePost st fp c st' r)
    {st : BundlerState} {imp : ImportData} {st1 : BundlerState} {cur : BundleResult}
    (h : importBranch fs (fun p c s => bundle fs fuel p c s d) st imp = some (st1, cur))
    (hst : StInv st) :
    StInv st1 ∧ RegFrame st st1 ∧ CountMono st st1 ∧ st1.globCalls = st.globCalls ∧
    cur.filePath = imp.fullPath ∧
    (∀ p, p ∈ dedupedPaths cur → 2 ≤ cnt p st1.encounterLog) := by
  unfold importBranch at h
  by_cases hf : imp.found = false
  · rw [if_pos hf] at h
    have h' := Option.some.inj h
    have hst1 : st = st1 := congrArg Prod.fst h'
    have hcur : BundleResult.mk imp.fullPath false none false none = cur :=
      congrArg Prod.snd h'
    subst hst1
    subst hcur
    refine ⟨hst, regFrame_refl st, countMono_refl st, Eq.refl _, Eq.refl _, ?_⟩
    intro p hp
    rw [dedupedPaths_notFound] at hp
    exact absurd hp (List.not_mem_nil p)
  · rw [if_neg hf] at h
    by_cases hreg : (regGet st imp.fullPath).isNone
    · rw [if_pos hreg] at h
      simp only [] at h
      cases hread : fsRead fs imp.fullPath with
      | none => rw [hread] at h; exact absurd h (by simp)
      | some impContent =>
        simp only [hread] at h
        cases hb2 : bundle fs fuel imp.fullPath impContent (logRead st imp.fullPath) d with
        | none => simp only [hb2] at h; exact Option.noConfusion h
        | some pr2 =>
          obtain ⟨st2, bi⟩ := pr2
          simp only [hb2] at h
          have h' := Option.some.inj h
          have hcur : cur = bi := (congrArg Prod.snd h').symm
          subst hcur
          have hst1 : registerImport st2 imp.fullPath cur = st1 := congrArg Prod.fst h'
          subst hst1
          have hregnone : regGet st imp.fullPath = none := Option.isNone_iff_eq_none.mp hreg
          have hpost := IH imp.fullPath impContent (logRead st imp.fullPath) st2 cur hb2
            (PreInv_logRead hst hregnone)
          obtain ⟨hSt2, hFrame2, hMono2, hGlob2, hFp2, _hFound2, ⟨s, hbc⟩, _hIbf2, hDed2,
            _hSeed2⟩ := hpost
          obtain ⟨hRL, hEL, hIBF, hGC⟩ := registerImport_fields st2 imp.fullPath cur
          obtain ⟨hSt2a, hSt2b, hSt2c, hSt2d⟩ := hSt2
          have hregne : ∀ k, imp.fullPath ≠ k →
              regGet (registerImport st2 imp.fullPath cur) k = regGet st2 k := by
            intro k hk
            rw [regGet_registerImport]
            exact regGet_set_ne st2 imp.fullPath k cur.bundledContent hk
          have hregself :
              regGet (registerImport st2 imp.fullPath cur) imp.fullPath = some s := by
            rw [regGet_registerImport, hbc]
            exact regGet_set_self st2 imp.fullPath s
          have hmono01 : CountMono st (logRead st imp.fullPath) := by
            intro q
            show cnt q st.encounterLog ≤ cnt q (st.encounterLog ++ [imp.fullPath])
            rw [cnt_append]
            exact Nat.le_add_right _ _
          refine ⟨⟨?_, ?_, ?_, ?_⟩, ?_, ?_, ?_, hFp2, ?_⟩
          · intro p
            rw [hRL]
            exact hSt2a p
          · intro p hp
            rw [hRL] at hp
            by_cases hpp : imp.fullPath = p
            · subst hpp
              rw [hregself]
              simp
            · rw [hregne p hpp]
              exact hSt2b p hp
          · intro q n hq
            rw [hEL]
            rcases registerImport_usedImports st2 imp.fullPath cur with
              ⟨hnone, hset⟩ | ⟨_, hkeep⟩
            · rw [hset] at hq
              by_cases hqp : imp.fullPath = q
              · subst hqp
                rw [alGet_set_self] at hq
                have hn1 : n = 1 := by
                  have := Option.some.inj hq
                  cases this
                  rfl
                subst hn1
                have h1 : 1 ≤ cnt imp.fullPath (logRead st imp.fullPath).encounterLog := by
                  show 1 ≤ cnt imp.fullPath (st.encounterLog ++ [imp.fullPath])
                  rw [cnt_append, cnt_singleton_self]
                  omega
                exact Nat.le_trans h1 (hMono2 imp.fullPath)
              · rw [alGet_set_ne _ _ _ _ hqp] at hq
                exact hSt2c q n hq
            · rw [hkeep] at hq
              exact hSt2c q n hq
          · intro k l q hk hq
            rw [hIBF] at hk
            rw [hEL]
            exact hSt2d k l q hk hq
          · intro k hk
            have hkne : imp.fullPath ≠ k := by
              intro hh
              subst hh
              rw [hregnone] at hk
              simp at hk
            rw [hregne k hkne]
            have hk2 : (regGet (logRead st imp.fullPath) k).isSome := hk
            rw [hFrame2 k hk2]
            exact Eq.refl _
          · intro q
            rw [hEL]
            exact Nat.le_trans (hmono01 q) (hMono2 q)
          · rw [hGC, hGlob2]
            exact Eq.refl _
          · intro p hp
            rw [hEL]
            exact hDed2 p hp
    · rw [if_neg hreg] at h
      have h' := Option.some.inj h
      have hst1 : incrementUsage st imp.fullPath = st1 := congrArg Prod.fst h'
      have hcur : BundleResult.mk imp.fullPath true none false
          (alGet st.importsByFile imp.fullPath) = cur := congrArg Prod.snd h'
      subst hst1
      subst hcur
      obtain ⟨hFR, hIBF, hRL, hEL, hGC⟩ := incrementUsage_fields st imp.fullPath
      obtain ⟨h1, h2, h3, h4⟩ := hst
      refine ⟨⟨?_, ?_, ?_, ?_⟩, ?_, ?_, hGC, Eq.refl _, ?_⟩
      · intro p
        rw [hRL]
        exact h1 p
      · intro p hp
        rw [hRL] at hp
        rw [regGet_incrementUsage]
        exact h2 p hp
      · intro q n hq
        have := alGet_uIncr st.usedImports imp.fullPath q
        rw [show (incrementUsage st imp.fullPath).usedImports =
            uIncr st.usedImports imp.fullPath from Eq.refl _] at hq
        rw [this] at hq
        rw [hEL, cnt_append]
        by_cases hqp : imp.fullPath = q
        · rw [if_pos hqp] at hq
          subst hqp
          cases hu : alGet st.usedImports imp.fullPath with
          | none => rw [hu] at hq; simp at hq
          | some j =>
            cases j with
            | nan => rw [hu] at hq; simp at hq
            | num m =>
              rw [hu] at hq
              simp only [Option.some.injEq, JsNum.num.injEq] at hq
              have hm := h3 imp.fullPath m hu
              rw [cnt_singleton_self]
              omega
        · rw [if_neg hqp] at hq
          exact Nat.le_trans (h3 q n hq) (Nat.le_add_right _ _)
      · intro k l q hk hq
        rw [hIBF] at hk
        rw [hEL, cnt_append]
        exact Nat.le_trans (h4 k l q hk hq) (Nat.le_add_right _ _)
      · intro k hk
        rw [regGet_incrementUsage]
      · intro q
        rw [hEL, cnt_append]
        exact Nat.le_add_right _ _
      · intro p hp
        rw [dedupedPaths_hit] at hp
        cases hibf : alGet st.importsByFile imp.fullPath with
        | none =>
          rw [hibf] at hp
          simp [dedupedPathsOpt] at hp
        | some l =>
          rw [hibf] at hp
          simp only [dedupedPathsOpt] at hp
          rw [hEL, cnt_append]
          exact Nat.le_trans (h4 imp.fullPath l p hibf hp) (Nat.le_add_right _ _)

/-! ### The loop invariant -/

def LoopInv (st0 : BundlerState) (a : LoopAcc) : Prop :=
  StInv a.st ∧ RegFrame st0 a.st ∧ CountMono st0 a.st ∧
  a.st.globCalls = st0.globCalls ∧
  (∀ p, p ∈ dedupedPathsList a.imports → 2 ≤ cnt p a.st.encounterLog)

theorem importStep_post {fs : List (String × String)} {d : List String} {fuel : Nat}
    (IH : ∀ fp c st st' r, bundle fs fuel fp c st d = some (st', r) →
      PreInv st fp → BundlePost st fp c st' r)
    {st0 : BundlerState} {a : LoopAcc} {imp : ImportData} {res : LoopAcc}
    (h : importStep fs d (fun p c s => bundle fs fuel p c s d) (some a) imp = some res)
    (hinv : LoopInv st0 a) : LoopInv st0 res := by
  obtain ⟨hSt, hFrame0, hMono0, hGlob0, hDed0⟩ := hinv
  unfold importStep at h
  cases hb : importBranch fs (fun p c s => bundle fs fuel p c s d) a.st imp with
  | none => simp only [hb] at h; exact Option.noConfusion h
  | some pr =>
    obtain ⟨st1, cur⟩ := pr
    simp only [hb] at h
    have hres : LoopAcc.mk st1 (substituteStep d st1 imp a.content cur).1
        (a.imports ++ [(substituteStep d st1 imp a.content cur).2]) = res :=
      Option.some.inj h
    subst hres
    obtain ⟨hSt1, hFrame1, hMono1, hGlob1, hFp1, hDed1⟩ := importBranch_post IH hb hSt
    refine ⟨hSt1, regFrame_trans hFrame0 hFrame1, countMono_trans hMono0 hMono1, ?_, ?_⟩
    · rw [hGlob1, hGlob0]
    · intro p hp
      rw [dedupedPathsList_append] at hp
      rcases List.mem_append.mp hp with hold | hnew
      · exact Nat.le_trans (hDed0 p hold) (hMono1 p)
      · rcases substituteStep_snd d st1 imp a.content cur with hsame | ⟨hdd, hok⟩
        · rw [hsame] at hnew
          exact hDed1 p hnew
        · rw [hdd] at hnew
          rcases mem_dedupedPaths_setDeduped hnew with hfp | hmem
          · obtain ⟨n, hn, h1n⟩ := timesUsedOk_some hok
            have := hSt1.2.2.1 imp.fullPath n hn
            show 2 ≤ cnt p st1.encounterLog
            rw [hfp, hFp1]
            omega
          · exact hDed1 p hmem

theorem foldl_importStep_none (fs : List (String × String)) (d : List String)
    (br : String → String → BundlerState → Option (BundlerState × BundleResult))
    (l : List ImportData) :
    l.foldl (importStep fs d br) none = none := by
  induction l with
  | nil => rfl
  | cons imp rest ih =>
    rw [List.foldl_cons]
    exact ih

theorem foldl_importStep_post {fs : List (String × String)} {d : List String} {fuel : Nat}
    (IH : ∀ fp c st st' r, bundle fs fuel fp c st d = some (st', r) →
      PreInv st fp → BundlePost st fp c st' r)
    (st0 : BundlerState) (l : List ImportData) :
    ∀ (a res : LoopAcc),
      l.foldl (importStep fs d (fun p c s => bundle fs fuel p c s d)) (some a) = some res →
      LoopInv st0 a → LoopInv st0 res := by
  induction l with
  | nil =>
    intro a res h ha
    rw [List.foldl_nil] at h
    have := Option.some.inj h
    subst this
    exact ha
  | cons imp rest ih =>
    intro a res h ha
    rw [List.foldl_cons] at h
    cases hs : importStep fs d (fun p c s => bundle fs fuel p c s d) (some a) imp with
    | none =>
      rw [hs, foldl_importStep_none] at h
      exact Option.noConfusion h
    | some a1 =>
      rw [hs] at h
      exact ih a1 res h (importStep_post IH hs ha)

/-! ### The master theorem for `bundle` -/

theorem bundle_master (fs : List (String × String)) (d : List String) :
    ∀ fuel fp content st st' r,
      bundle fs fuel fp content st d = some (st', r) →
      PreInv st fp → BundlePost st fp content st' r := by
  intro fuel
  induction fuel with
  | zero =>
    intro fp content st st' r h _
    exact Option.noConfusion h
  | succ fuel IH =>
    intro fp content st st' r h hpre
    rw [show bundle fs (fuel + 1) fp content st d =
        (((scanImports (stripCommented content)).map
            (resolveImport fs (pathDirname fp))).foldl
          (importStep fs d (fun p c s => bundle fs fuel p c s d))
          (some (LoopAcc.mk (seedState st fp (stripCommented content))
            (stripCommented content) []))).map (finishBundle fp) from Eq.refl _] at h
    rw [Option.map_eq_some'] at h
    obtain ⟨accF, hfold, hfin⟩ := h
    set st1 := seedState st fp (stripCommented content) with hst1
    have hinit : LoopInv st1 (LoopAcc.mk st1 (stripCommented content) []) := by
      refine ⟨StInv_seedState (stripCommented content) hpre, regFrame_refl st1,
        countMono_refl st1, Eq.refl _, ?_⟩
      intro p hp
      simp [dedupedPathsList] at hp
    have hloop := foldl_importStep_post IH st1 _ _ accF hfold hinit
    obtain ⟨hStF, hFrameF, hMonoF, hGlobF, hDedF⟩ := hloop
    unfold finishBundle at hfin
    have hstF : { accF.st with
        importsByFile := alSet accF.st.importsByFile fp accF.imports } = st' :=
      congrArg Prod.fst hfin
    have hrF : r = BundleResult.mk fp true (some accF.content) false (some accF.imports) :=
      (congrArg Prod.snd hfin).symm
    subst hrF
    subst hstF
    obtain ⟨hA, hB, hC, hD⟩ := hStF
    obtain ⟨sfU, sfI, sfR, sfE, sfG⟩ := seedState_fields st fp (stripCommented content)
    refine ⟨⟨?_, ?_, ?_, ?_⟩, ?_, ?_, ?_, Eq.refl _, Eq.refl _,
      ⟨accF.content, Eq.refl _⟩, ⟨accF.imports, Eq.refl _, ?_⟩, ?_, ?_⟩
    · intro p
      exact hA p
    · intro p hp
      exact hB p hp
    · intro q n hq
      exact hC q n hq
    · intro k l q hk hq
      show 2 ≤ cnt q accF.st.encounterLog
      by_cases hkfp : fp = k
      · subst hkfp
        rw [show alGet (alSet accF.st.importsByFile fp accF.imports) fp =
            some accF.imports from alGet_set_self _ _ _] at hk
        have hl : accF.imports = l := Option.some.inj hk
        subst hl
        exact hDedF q hq
      · rw [alGet_set_ne _ _ _ _ hkfp] at hk
        exact hD k l q hk hq
    · intro k hk
      show regGet { accF.st with
          importsByFile := alSet accF.st.importsByFile fp accF.imports } k = regGet st k
      have hs1 : (regGet st1 k).isSome := by
        rw [seedState_frame st fp (stripCommented content) k hk]
        exact hk
      have : regGet accF.st k = regGet st1 k := hFrameF k hs1
      calc regGet accF.st k = regGet st1 k := this
        _ = regGet st k := seedState_frame st fp (stripCommented content) k hk
    · intro q
      show cnt q st.encounterLog ≤ cnt q accF.st.encounterLog
      have : cnt q st1.encounterLog = cnt q st.encounterLog := by rw [sfE]
      rw [← this]
      exact hMonoF q
    · show ({ accF.st with
        importsByFile := alSet accF.st.importsByFile fp accF.imports }).globCalls =
        st.globCalls
      show accF.st.globCalls = st.globCalls
      rw [hGlobF, sfG]
    · show alGet (alSet accF.st.importsByFile fp accF.imports) fp = some accF.imports
      exact alGet_set_self _ _ _
    · intro p hp
      rw [dedupedPaths_hit] at hp
      simp only [dedupedPathsOpt] at hp
      exact hDedF p hp
    · intro hnone
      show regGet { accF.st with
          importsByFile := alSet accF.st.importsByFile fp accF.imports } fp =
        some (stripCommented content)
      have hseed : regGet st1 fp = some (stripCommented content) :=
        (regGet_seedState_self st fp (stripCommented content)).2 hnone
      have hsome : (regGet st1 fp).isSome := by rw [hseed]; simp
      show regGet accF.st fp = some (stripCommented content)
      rw [hFrameF fp hsome, hseed]

/-! ### Contracts for the public interface -/

theorem globFilesOrEmpty_empty (g : List String → Except String (List String))
    (st : BundlerState) (gl : List String) (hd : gl.isEmpty = true) :
    globFilesOrEmpty g st gl = (st, Except.ok []) := by
  unfold globFilesOrEmpty
  rw [if_pos hd]

theorem globFilesOrEmpty_state (g : List String → Except String (List String))
    (st : BundlerState) (gl : List String) :
    (globFilesOrEmpty g st gl).1 = st ∨
    (globFilesOrEmpty g st gl).1 = { st with globCalls := st.globCalls + 1 } := by
  unfold globFilesOrEmpty
  by_cases hd : gl.isEmpty
  · left; rw [if_pos hd]
  · right
    rw [if_neg hd]
    cases g gl <;> simp

theorem globFilesOrEmpty_state_nonempty (g : List String → Except String (List String))
    (st : BundlerState) (gl : List String) (hd : gl.isEmpty = false) :
    (globFilesOrEmpty g st gl).1 = { st with globCalls := st.globCalls + 1 } := by
  unfold globFilesOrEmpty
  rw [if_neg (by rw [hd]; exact Bool.false_ne_true)]
  cases g gl <;> simp

theorem StInv_globSet {st : BundlerState} (n : Nat) (h : StInv st) :
    StInv { st with globCalls := n } := h

theorem Bundle_post {fs : List (String × String)}
    {g : List String → Except String (List String)} {fuel : Nat}
    {st : BundlerState} {file : String} {d : List String}
    {st' : BundlerState} {r : BundleResult}
    (h : Bundle fs g fuel st file d = some (st', r)) (hst : StInv st) :
    StInv st' ∧ CountMono st st' ∧ r.filePath = file ∧
    (∀ p, p ∈ dedupedPaths r → 2 ≤ cnt p st'.encounterLog) ∧
    ((fsRead fs file).isSome = true → d ≠ [] → st'.globCalls = st.globCalls + 1) ∧
    (fsRead fs file = none → st' = st) := by
  unfold Bundle at h
  cases hrd : fsRead fs file with
  | none =>
    simp only [hrd] at h
    have h' := Option.some.inj h
    have hst' : st = st' := congrArg Prod.fst h'
    have hr : r = BundleResult.mk file false none false none := (congrArg Prod.snd h').symm
    subst hst'
    subst hr
    refine ⟨hst, countMono_refl st, Eq.refl _, ?_, ?_, fun _ => Eq.refl _⟩
    · intro p hp
      rw [dedupedPaths_notFound] at hp
      exact absurd hp (List.not_mem_nil p)
    · intro hsome _
      exact absurd hsome (by simp)
  | some content =>
    simp only [hrd] at h
    have hst1 : StInv (globFilesOrEmpty g st d).1 := by
      rcases globFilesOrEmpty_state g st d with he | he
      · rw [he]; exact hst
      · rw [he]; exact StInv_globSet _ hst
    have henc1 : (globFilesOrEmpty g st d).1.encounterLog = st.encounterLog := by
      rcases globFilesOrEmpty_state g st d with he | he <;> rw [he]
    cases hg : (globFilesOrEmpty g st d).2 with
    | error e =>
      rw [hg] at h
      have h' := Option.some.inj h
      have hst' : (globFilesOrEmpty g st d).1 = st' := congrArg Prod.fst h'
      have hr : r = BundleResult.mk file false none false none := (congrArg Prod.snd h').symm
      subst hst'
      subst hr
      refine ⟨hst1, ?_, Eq.refl _, ?_, ?_, ?_⟩
      · intro p; rw [henc1]
      · intro p hp
        rw [dedupedPaths_notFound] at hp
        exact absurd hp (List.not_mem_nil p)
      · intro _ hd
        have hde : d.isEmpty = false := by
          cases d with
          | nil => exact absurd (Eq.refl _) hd
          | cons x xs => rfl
        rw [globFilesOrEmpty_state_nonempty g st d hde]
      · intro hn
        exact Option.noConfusion hn
    | ok dfs =>
      rw [hg] at h
      have hpost := bundle_master fs dfs fuel file content (globFilesOrEmpty g st d).1
        st' r h (hst1.toPre file)
      obtain ⟨hStF, hFrameF, hMonoF, hGlobF, hFp, _hFound, _hBC, _hIbf, hDed, _hSeed⟩ :=
        hpost
      refine ⟨hStF, ?_, hFp, hDed, ?_, ?_⟩
      · intro p
        rw [← henc1]
        exact hMonoF p
      · intro _ hd
        have hde : d.isEmpty = false := by
          cases d with
          | nil => exact absurd (Eq.refl _) hd
          | cons x xs => rfl
        rw [hGlobF, globFilesOrEmpty_state_nonempty g st d hde]
      · intro hn
        exact Option.noConfusion hn

theorem BundleAll_post {fs : List (String × String)}
    {g : List String → Except String (List String)} {fuel : Nat} {d : List String} :
    ∀ {files : List String} {st st' : BundlerState} {rs : List BundleResult},
      BundleAll fs g fuel st files d = some (st', rs) → StInv st →
      StInv st' ∧ CountMono st st' ∧ rs.map BundleResult.filePath = files ∧
      (∀ r, r ∈ rs → ∀ p, p ∈ dedupedPaths r → 2 ≤ cnt p st'.encounterLog) := by
  intro files
  induction files with
  | nil =>
    intro st st' rs h hst
    unfold BundleAll at h
    have h' := Option.some.inj h
    have hst' : st = st' := congrArg Prod.fst h'
    have hrs : rs = [] := (congrArg Prod.snd h').symm
    subst hst'
    subst hrs
    exact ⟨hst, countMono_refl st, Eq.refl _, fun r hr => absurd hr (List.not_mem_nil r)⟩
  | cons f rest ih =>
    intro st st' rs h hst
    unfold BundleAll at h
    cases hb : Bundle fs g fuel st f d with
    | none => rw [hb] at h; exact Option.noConfusion h
    | some pr =>
      obtain ⟨st1, r⟩ := pr
      rw [hb] at h
      rw [Option.map_eq_some'] at h
      obtain ⟨⟨st2, rs2⟩, hrec, heq⟩ := h
      have hst' : st2 = st' := congrArg Prod.fst heq
      have hrs : rs = r :: rs2 := (congrArg Prod.snd heq).symm
      subst hst'
      subst hrs
      obtain ⟨hSt1, hMono1, hFp1, hDed1, _, _⟩ := Bundle_post hb hst
      obtain ⟨hSt2, hMono2, hMap2, hDed2⟩ := ih hrec hSt1
      refine ⟨hSt2, countMono_trans hMono1 hMono2, ?_, ?_⟩
      · rw [List.map_cons, hFp1, hMap2]
      · intro rr hrr p hp
        rcases List.mem_cons.mp hrr with hhead | htail
        · subst hhead
          exact Nat.le_trans (hDed1 p hp) (hMono2 p)
        · exact hDed2 rr htail p hp

theorem BundleAll_globCalls {fs : List (String × String)}
    {g : List String → Except String (List String)} {fuel : Nat} {d : List String} :
    ∀ {files : List String} {st st' : BundlerState} {rs : List BundleResult},
      BundleAll fs g fuel st files d = some (st', rs) → StInv st → d ≠ [] →
      (∀ f, f ∈ files → (fsRead fs f).isSome = true) →
      st'.globCalls = st.globCalls + files.length := by
  intro files
  induction files with
  | nil =>
    intro st st' rs h _ _ _
    unfold BundleAll at h
    have h' := Option.some.inj h
    have hst' : st = st' := congrArg Prod.fst h'
    subst hst'
    rfl
  | cons f rest ih =>
    intro st st' rs h hst hd hall
    unfold BundleAll at h
    cases hb : Bundle fs g fuel st f d with
    | none => rw [hb] at h; exact Option.noConfusion h
    | some pr =>
      obtain ⟨st1, r⟩ := pr
      rw [hb] at h
      rw [Option.map_eq_some'] at h
      obtain ⟨⟨st2, rs2⟩, hrec, heq⟩ := h
      have hst' : st2 = st' := congrArg Prod.fst heq
      subst hst'
      obtain ⟨hSt1, _, _, _, hGlob1, _⟩ := Bundle_post hb hst
      have h1 : st1.globCalls = st.globCalls + 1 :=
        hGlob1 (hall f (List.mem_cons_self f rest)) hd
      have h2 : st2.globCalls = st1.globCalls + rest.length :=
        ih hrec hSt1 hd (fun x hx => hall x (List.mem_cons_of_mem f hx))
      rw [h2, h1, List.length_cons]
      omega

/-! ## Concrete scenario fixtures -/

def exImp : String := "@import " ++ sqS ++ "a" ++ sqS ++ ";"

def exFsMain2 : List (String × String) :=
  [("/p/main.scss", exImp ++ "\n" ++ exImp ++ "\nbody"), ("/p/a.scss", ".a-rule")]

def exFsMA : List (String × String) :=
  [("/p/m.scss", exImp), ("/p/a.scss", ".a-rule")]

def exGlobA : List String → Except String (List String) := fun _ => Except.ok ["/p/a.scss"]

def exGlobEmpty : List String → Except String (List String) := fun _ => Except.ok []

def exGlobErr : List String → Except String (List String) := fun _ => Except.error "glob failed"

def exFs2e : List (String × String) := [("/p/e1.scss", "x"), ("/p/e2.scss", "y")]

def exFsSingle : List (String × String) := [("/p/m.scss", "x")]

def exANode : BundleResult := BundleResult.mk "/p/a.scss" true (some ".a-rule") false (some [])

def exW2st : BundlerState := ⟨[("/p/m.scss", some "x")], [], [("/p/m.scss", [])], [], [], 0⟩

def exW2r : BundleResult := BundleResult.mk "/p/m.scss" true (some "x") false (some [])

def exW3st : BundlerState := ⟨[("/p/e1.scss", some "x"), ("/p/e2.scss", some "y")], [],
  [("/p/e1.scss", []), ("/p/e2.scss", [])], [], [], 2⟩

def exW3r1 : BundleResult := BundleResult.mk "/p/e1.scss" true (some "x") false (some [])

def exW3r2 : BundleResult := BundleResult.mk "/p/e2.scss" true (some "y") false (some [])

def exW7st : BundlerState := ⟨[("/p/m.scss", some exImp), ("/p/a.scss", some ".a-rule")],
  [("/p/a.scss", JsNum.num 1)], [("/p/a.scss", []), ("/p/m.scss", [exANode])],
  ["/p/a.scss"], ["/p/a.scss"], 1⟩

def exW7r : BundleResult :=
  BundleResult.mk "/p/m.scss" true (some ".a-rule") false (some [exANode])

def exW6st : BundlerState := ⟨[("/p/m.scss", some exImp), ("/p/a.scss", some ".a-rule")],
  [("/p/a.scss", JsNum.num 1)], [("/p/a.scss", []), ("/p/m.scss", [exANode])],
  ["/p/a.scss"], ["/p/a.scss"], 0⟩

def exW6r : BundleResult :=
  BundleResult.mk "/p/m.scss" true (some ".a-rule") false (some [exANode])

def exDqContent : String := "//@import " ++ dqS ++ "a" ++ dqS ++ ";"

def exSqContent : String := "//@import " ++ sqS ++ "a" ++ sqS ++ ";"

def exFsDq : List (String × String) := [("/p/m.scss", exDqContent), ("/p/a.scss", ".a-rule")]

def exMissImp : String := "@import " ++ sqS ++ "missing" ++ sqS ++ ";"

def exFsOnlyM : List (String × String) := [("/p/m.scss", exMissImp)]

/-! ## Additional helper lemmas for the claims -/

theorem importStep_some (fs : List (String × String)) (d : List String)
    (br : String → String → BundlerState → Option (BundlerState × BundleResult))
    (st : BundlerState) (content : String) (acc : List BundleResult) (imp : ImportData) :
    importStep fs d br (some (LoopAcc.mk st content acc)) imp =
      match importBranch fs br st imp with
      | none => none
      | some (st1, cur) =>
        some (LoopAcc.mk st1 (substituteStep d st1 imp content cur).1
          (acc ++ [(substituteStep d st1 imp content cur).2])) := Eq.refl _

theorem resolveImport_notFound (fs : List (String × String)) (dir : String)
    (m : String × String) (h : (resolveImport fs dir m).found = false) :
    (fsRead fs (resolveImport fs dir m).fullPath).isSome = false := by
  unfold resolveImport at h ⊢
  by_cases h1 : (fsRead fs (pathResolve dir
      (if containsSubstr m.2 FILE_EXTENSION = true then m.2
       else m.2 ++ FILE_EXTENSION))).isSome = true
  · simp [h1] at h
  · by_cases h2 : (fsRead fs (pathJoin
        (pathDirname (pathResolve dir
          (if containsSubstr m.2 FILE_EXTENSION = true then m.2
           else m.2 ++ FILE_EXTENSION)))
        ("_" ++ pathBasename (pathResolve dir
          (if containsSubstr m.2 FILE_EXTENSION = true then m.2
           else m.2 ++ FILE_EXTENSION))))).isSome = true
    · simp [h1, h2] at h
    · simp only [Bool.not_eq_true] at h1 h2
      simp [h1, h2]

theorem Bundle_missing {fs : List (String × String)}
    {g : List String → Except String (List String)} {fuel : Nat} {st : BundlerState}
    {file : String} {d : List String} (hmiss : fsRead fs file = none) :
    Bundle fs g fuel st file d = some (st, BundleResult.mk file false none false none) := by
  unfold Bundle
  rw [hmiss]

theorem BundleAll_cons (fs : List (String × String))
    (g : List String → Except String (List String)) (fuel : Nat) (st : BundlerState)
    (f : String) (rest : List String) (d : List String) :
    BundleAll fs g fuel st (f :: rest) d =
      match Bundle fs g fuel st f d with
      | none => none
      | some (st1, r) =>
        (BundleAll fs g fuel st1 rest d).map (fun p => (p.1, r :: p.2)) := Eq.refl _

theorem BundleAll_insert_missing {fs : List (String × String)}
    {g : List String → Except String (List String)} {fuel : Nat} {d : List String}
    {file : String} (hmiss : fsRead fs file = none) :
    ∀ (xs : List String) (st : BundlerState) (ys : List String),
      BundleAll fs g fuel st (xs ++ file :: ys) d =
        (BundleAll fs g fuel st (xs ++ ys) d).map
          (fun pr => (pr.1,
            insertAtPos xs.length (BundleResult.mk file false none false none) pr.2)) := by
  intro xs
  induction xs with
  | nil =>
    intro st ys
    simp only [List.nil_append]
    rw [BundleAll_cons]
    simp only [Bundle_missing hmiss]
    cases hrec : BundleAll fs g fuel st ys d with
    | none => rfl
    | some pr =>
      obtain ⟨st2, rs2⟩ := pr
      simp [insertAtPos]
  | cons x xs ih =>
    intro st ys
    simp only [List.cons_append]
    rw [BundleAll_cons, BundleAll_cons]
    cases hb : Bundle fs g fuel st x d with
    | none => simp
    | some pr =>
      obtain ⟨st1, r⟩ := pr
      simp only []
      rw [ih st1 ys]
      cases hrec : BundleAll fs g fuel st1 (xs ++ ys) d with
      | none => rfl
      | some pr2 =>
        obtain ⟨st2, rs2⟩ := pr2
        simp [insertAtPos]

/-! ## The claims -/

/-- C1: the claim says that for a dedupe-matched file imported twice, the
first occurrence inlines the full content and the second substitutes empty
text, leaving the file inlined exactly once at the first import site.  The
code instead resets the ENTIRE working content to the empty string when the
dedup rule fires (line 200 of `bundler.ts`), so the bundled output of the
entry is empty: the first occurrence's inlined copy is lost as well.  This
theorem evaluates the code on the failing input: entry `/p/main.scss`
importing `/p/a.scss` twice with `/p/a.scss` in the dedupe set yields
`bundledContent = ""` (not containing `.a-rule` at all) while the second
child is marked `deduped`. -/
theorem C1_dedup_discards_whole_content :
    (Bundle exFsMain2 exGlobA 20 initState "/p/main.scss" ["*.scss"]).map
        (fun pr => (pr.2.bundledContent, (pr.2.importsOpt.getD []).map BundleResult.deduped))
      = some (some "", [false, true]) ∧
    containsSubstr "" ".a-rule" = false := by
  constructor
  · decide
  · decide

/-- C2: across one run started from a fresh engine state, `fs.readFile` is
invoked at most once per absolute import-target path (the ghost `readLog`
records exactly the line-147 reads). -/
theorem C2_import_read_at_most_once (fs : List (String × String))
    (g : List String → Except String (List String)) (fuel : Nat)
    (files : List String) (d : List String) (stF : BundlerState)
    (rs : List BundleResult) (p : String)
    (h : BundleAll fs g fuel initState files d = some (stF, rs)) :
    cnt p stF.readLog ≤ 1 :=
  ((BundleAll_post h StInv_init).1).1 p

/-- Witness for C2 at a concrete run. -/
theorem C2_import_read_at_most_once_witness :
    BundleAll exFsSingle exGlobEmpty 5 initState ["/p/m.scss"] [] =
      some (exW2st, [exW2r]) ∧
    cnt "/p/a.scss" exW2st.readLog ≤ 1 := by
  constructor
  · rfl
  · exact C2_import_read_at_most_once exFsSingle exGlobEmpty 5 ["/p/m.scss"] []
      exW2st [exW2r] "/p/a.scss" (by rfl)

/-- C3 counterexample: with two entries and a nonempty dedupe pattern list,
the external glob library is invoked twice in one `BundleAll` call (once per
entry, inside each `Bundle`), not exactly once as the claim states. -/
theorem C3_glob_expansion_counterexample :
    (BundleAll exFs2e exGlobEmpty 5 initState ["/p/e1.scss", "/p/e2.scss"] ["*.scss"]).map
        (fun pr => pr.1.globCalls) = some 2 ∧
    ¬ (BundleAll exFs2e exGlobEmpty 5 initState
        ["/p/e1.scss", "/p/e2.scss"] ["*.scss"]).map (fun pr => pr.1.globCalls) = some 1 := by
  constructor
  · decide
  · decide

/-- C3 amended: each entry's `Bundle` call performs its own expansion of the
same dedupe pattern list (so a batch of n readable entries with a nonempty
pattern list invokes the glob library exactly n times), and the returned
list contains one Bundle Node per input path in input order. -/
theorem C3_glob_expanded_once_per_entry (fs : List (String × String))
    (g : List String → Except String (List String)) (fuel : Nat)
    (files : List String) (d : List String) (stF : BundlerState)
    (rs : List BundleResult)
    (h : BundleAll fs g fuel initState files d = some (stF, rs))
    (hd : d ≠ [])
    (hall : ∀ f, f ∈ files → (fsRead fs f).isSome = true) :
    stF.globCalls = files.length ∧ rs.map BundleResult.filePath = files := by
  have hpost := BundleAll_post h StInv_init
  have hglob := BundleAll_globCalls h StInv_init hd hall
  constructor
  · rw [hglob]
    show 0 + files.length = files.length
    omega
  · exact hpost.2.2.1

/-- Witness for the amended C3 at a concrete two-entry run. -/
theorem C3_glob_expanded_once_per_entry_witness :
    BundleAll exFs2e exGlobEmpty 5 initState ["/p/e1.scss", "/p/e2.scss"] ["*.scss"] =
      some (exW3st, [exW3r1, exW3r2]) ∧
    exW3st.globCalls = 2 ∧
    [exW3r1, exW3r2].map BundleResult.filePath = ["/p/e1.scss", "/p/e2.scss"] := by
  refine ⟨by rfl, ?_, ?_⟩
  · exact (C3_glob_expanded_once_per_entry exFs2e exGlobEmpty 5
      ["/p/e1.scss", "/p/e2.scss"] ["*.scss"] exW3st [exW3r1, exW3r2]
      (by rfl) (by decide) (by decide)).1
  · exact (C3_glob_expanded_once_per_entry exFs2e exGlobEmpty 5
      ["/p/e1.scss", "/p/e2.scss"] ["*.scss"] exW3st [exW3r1, exW3r2]
      (by rfl) (by decide) (by decide)).2

/-- C4 counterexample: a failing dedupe-glob expansion is NOT propagated to
the caller as a run-level failure: `BundleAll` still completes normally and
the readable entry merely comes back as a `found:false` node
(indistinguishable from a missing entry file), because `Bundle` catches the
rejection in its `try`/`catch`. -/
theorem C4_glob_failure_counterexample :
    BundleAll exFs2e exGlobErr 5 initState ["/p/e1.scss"] ["*.scss"] =
      some ({ initState with globCalls := 1 },
        [BundleResult.mk "/p/e1.scss" false none false none]) := by
  rfl

/-- C4 amended: when the glob expansion of a nonempty dedupe pattern list
fails for a readable entry, the failure is caught inside that entry's
`Bundle` call: the entry yields a `found:false` node, no bundling is
performed for it, and no cache state changes (only the ghost glob-invocation
counter moves); no exception reaches the `BundleAll` caller.  No partial or
empty dedupe set is used: the engine is never invoked for that entry. -/
theorem C4_glob_failure_caught_per_entry (fs : List (String × String))
    (g : List String → Except String (List String)) (fuel : Nat) (st : BundlerState)
    (file : String) (d : List String) (content e : String)
    (hread : fsRead fs file = some content)
    (hfail : g d = Except.error e)
    (hd : d.isEmpty = false) :
    Bundle fs g fuel st file d =
      some ({ st with globCalls := st.globCalls + 1 },
        BundleResult.mk file false none false none) := by
  have hg : globFilesOrEmpty g st d =
      ({ st with globCalls := st.globCalls + 1 }, Except.error e) := by
    unfold globFilesOrEmpty
    rw [if_neg (by rw [hd]; exact Bool.false_ne_true), hfail]
  unfold Bundle
  rw [hread]
  simp only [hg]

/-- Witness for the amended C4 at a concrete input. -/
theorem C4_glob_failure_caught_per_entry_witness :
    fsRead exFs2e "/p/e1.scss" = some "x" ∧
    exGlobErr ["*.scss"] = Except.error "glob failed" ∧
    Bundle exFs2e exGlobErr 10 initState "/p/e1.scss" ["*.scss"] =
      some ({ initState with globCalls := initState.globCalls + 1 },
        BundleResult.mk "/p/e1.scss" false none false none) := by
  refine ⟨by rfl, by rfl, ?_⟩
  exact C4_glob_failure_caught_per_entry exFs2e exGlobErr 10 initState "/p/e1.scss"
    ["*.scss"] "x" "glob failed" (by rfl) (by rfl) (by rfl)

/-- C5: import-path resolution appends the default `.scss` suffix exactly
when it is not already present in the raw path (the code's `indexOf` test),
returns the absolute candidate when it exists, otherwise the underscored
partial when that exists, and otherwise reports `found = false` carrying the
non-underscored candidate; the operation is total (no exception escapes). -/
theorem C5_path_resolution (fs : List (String × String))
    (dir raw full name cand und : String)
    (hname : name = if containsSubstr raw FILE_EXTENSION = true then raw
      else raw ++ FILE_EXTENSION)
    (hcand : cand = pathResolve dir name)
    (hund : und = pathJoin (pathDirname cand) ("_" ++ pathBasename cand)) :
    (resolveImport fs dir (full, raw)).importString = full ∧
    (resolveImport fs dir (full, raw)).path = name ∧
    ((fsRead fs cand).isSome = true →
      (resolveImport fs dir (full, raw)).fullPath = cand ∧
      (resolveImport fs dir (full, raw)).found = true) ∧
    ((fsRead fs cand).isSome = false → (fsRead fs und).isSome = true →
      (resolveImport fs dir (full, raw)).fullPath = und ∧
      (resolveImport fs dir (full, raw)).found = true) ∧
    ((fsRead fs cand).isSome = false → (fsRead fs und).isSome = false →
      (resolveImport fs dir (full, raw)).fullPath = cand ∧
      (resolveImport fs dir (full, raw)).found = false) := by
  subst hname
  subst hcand
  subst hund
  unfold resolveImport
  by_cases h1 : (fsRead fs (pathResolve dir
      (if containsSubstr raw FILE_EXTENSION = true then raw
       else raw ++ FILE_EXTENSION))).isSome = true
  · simp [h1]
  · by_cases h2 : (fsRead fs (pathJoin
        (pathDirname (pathResolve dir
          (if containsSubstr raw FILE_EXTENSION = true then raw
           else raw ++ FILE_EXTENSION)))
        ("_" ++ pathBasename (pathResolve dir
          (if containsSubstr raw FILE_EXTENSION = true then raw
           else raw ++ FILE_EXTENSION))))).isSome = true
    · simp [h1, h2]
    · simp [h1, h2]

/-- Witness for C5 exercising the underscored-partial branch. -/
theorem C5_path_resolution_witness :
    ("button.scss" = if containsSubstr "button" FILE_EXTENSION = true then "button"
      else "button" ++ FILE_EXTENSION) ∧
    ("/p/button.scss" = pathResolve "/p" "button.scss") ∧
    ("/p/_button.scss" =
      pathJoin (pathDirname "/p/button.scss") ("_" ++ pathBasename "/p/button.scss")) ∧
    ((fsRead [("/p/_button.scss", ".btn")] "/p/button.scss").isSome = false →
      (fsRead [("/p/_button.scss", ".btn")] "/p/_button.scss").isSome = true →
      (resolveImport [("/p/_button.scss", ".btn")] "/p" ("x", "button")).fullPath =
        "/p/_button.scss" ∧
      (resolveImport [("/p/_button.scss", ".btn")] "/p" ("x", "button")).found = true) := by
  refine ⟨by decide, by decide, by decide, ?_⟩
  exact (C5_path_resolution [("/p/_button.scss", ".btn")] "/p" "button" "x"
    "button.scss" "/p/button.scss" "/p/_button.scss"
    (by decide) (by decide) (by decide)).2.2.2.1

/-- C6 counterexample: for an ENTRY file the File Content Cache entry is not
overwritten with the final bundled content: after bundling `/p/m.scss`
(whose single import resolves and substitutes), the registry still holds the
raw-content seed `@import 'a';`, not the bundled content `.a-rule`. -/
theorem C6_entry_registry_keeps_seed_counterexample :
    (Bundle exFsMA exGlobEmpty 10 initState "/p/m.scss" []).map
        (fun pr => (regGet pr.1 "/p/m.scss", pr.2.bundledContent))
      = some (some exImp, some ".a-rule") ∧
    exImp ≠ ".a-rule" := by
  constructor
  · decide
  · decide

/-- C6 amended: after all directives of a file are substituted, the child
node list is recorded in the Child-Import Cache, and the file's OWN File
Content Cache entry is not overwritten by that processing: pre-existing
registry entries keep their values, and an entry seeded at the start of
processing still holds the raw (comment-stripped) seed on completion.  The
final bundled content reaches the cache only through the importing file's
loop after the recursive call, so the imported-file case behaves as claimed
while the entry-file case retains the seed. -/
theorem C6_child_list_recorded_and_seed_retained (fs : List (String × String))
    (d : List String) (fuel : Nat) (fp content : String) (st stF : BundlerState)
    (r : BundleResult)
    (h : bundle fs fuel fp content st d = some (stF, r))
    (hpre : PreInv st fp) :
    (∃ l, r.importsOpt = some l ∧ alGet stF.importsByFile fp = some l) ∧
    (∀ k, (regGet st k).isSome = true → regGet stF k = regGet st k) ∧
    (regGet st fp = none → regGet stF fp = some (stripCommented content)) := by
  obtain ⟨_, hFrame, _, _, _, _, _, hIbf, _, hSeed⟩ :=
    bundle_master fs d fuel fp content st stF r h hpre
  exact ⟨hIbf, hFrame, hSeed⟩

/-- Witness for the amended C6 at a concrete run. -/
theorem C6_child_list_recorded_and_seed_retained_witness :
    bundle exFsMA 10 "/p/m.scss" exImp initState [] = some (exW6st, exW6r) ∧
    regGet exW6st "/p/m.scss" = some (stripCommented exImp) ∧
    alGet exW6st.importsByFile "/p/m.scss" = some [exANode] := by
  have hc := C6_child_list_recorded_and_seed_retained exFsMA [] 10 "/p/m.scss" exImp
    initState exW6st exW6r (by rfl) (StInv_init.toPre "/p/m.scss")
  refine ⟨by rfl, hc.2.2 (by rfl), ?_⟩
  obtain ⟨l, hl1, hl2⟩ := hc.1
  have hleq : l = [exANode] := by
    have h2 : exW6r.importsOpt = some [exANode] := by rfl
    rw [h2] at hl1
    exact (Option.some.inj hl1).symm
  rw [← hleq]
  exact hl2

/-- C7: a path that is encountered as a found import target at most once in
a whole run (fresh engine state) is never marked `deduped` in any returned
Bundle Node tree, regardless of dedupe-set membership: the dedup rule
requires a usage count strictly greater than 1. -/
theorem C7_dedup_requires_multiple_uses (fs : List (String × String))
    (g : List String → Except String (List String)) (fuel : Nat)
    (files : List String) (d : List String) (stF : BundlerState)
    (rs : List BundleResult) (p : String)
    (h : BundleAll fs g fuel initState files d = some (stF, rs))
    (hone : cnt p stF.encounterLog ≤ 1) :
    ∀ r, r ∈ rs → p ∉ dedupedPaths r := by
  intro r hr hp
  have h2 := (BundleAll_post h StInv_init).2.2.2 r hr p hp
  omega

/-- Witness for C7: `/p/a.scss` is in the dedupe set but imported once, and
its node is not deduped. -/
theorem C7_dedup_requires_multiple_uses_witness :
    BundleAll exFsMA exGlobA 10 initState ["/p/m.scss"] ["*.scss"] =
      some (exW7st, [exW7r]) ∧
    cnt "/p/a.scss" exW7st.encounterLog ≤ 1 ∧
    "/p/a.scss" ∉ dedupedPaths exW7r := by
  refine ⟨by rfl, by decide, ?_⟩
  exact C7_dedup_requires_multiple_uses exFsMA exGlobA 10 ["/p/m.scss"] ["*.scss"]
    exW7st [exW7r] "/p/a.scss" (by rfl) (by decide) exW7r
    (List.mem_singleton.mpr (Eq.refl _))

/-- C8: a live import directive whose target resolves to `found:false` is
substituted by the diagnostic marker embedding the original directive text
verbatim, contributes a child node with `found:false`, and leaves the whole
engine state untouched (in particular no Usage Counter entry is created or
modified for the target); the state hypotheses say that every counter or
registry key refers to an existing file, which holds throughout a run over a
static filesystem. -/
theorem C8_not_found_marker_and_untouched_counter (fs : List (String × String))
    (d : List String)
    (bundleRec : String → String → BundlerState → Option (BundlerState × BundleResult))
    (st : BundlerState) (content : String) (acc : List BundleResult)
    (dir raw full : String)
    (hnf : (resolveImport fs dir (full, raw)).found = false)
    (hE : ∀ k, alGet st.usedImports k ≠ none → (fsRead fs k).isSome = true)
    (hR : ∀ k, (regGet st k).isSome = true → (fsRead fs k).isSome = true) :
    importStep fs d bundleRec (some (LoopAcc.mk st content acc))
        (resolveImport fs dir (full, raw)) =
      some (LoopAcc.mk st
        (replaceFirst content (resolveImport fs dir (full, raw)).importString
          (notFoundMarker (resolveImport fs dir (full, raw)).importString))
        (acc ++ [BundleResult.mk (resolveImport fs dir (full, raw)).fullPath
          false none false none])) := by
  have hfs : (fsRead fs (resolveImport fs dir (full, raw)).fullPath).isSome = false :=
    resolveImport_notFound fs dir (full, raw) hnf
  have hreg : regGet st (resolveImport fs dir (full, raw)).fullPath = none := by
    cases hr : regGet st (resolveImport fs dir (full, raw)).fullPath with
    | none => rfl
    | some v =>
      have h2 := hR _ (by rw [hr]; rfl)
      rw [h2] at hfs
      exact absurd hfs (by simp)
  have hu : alGet st.usedImports (resolveImport fs dir (full, raw)).fullPath = none := by
    cases hr : alGet st.usedImports (resolveImport fs dir (full, raw)).fullPath with
    | none => rfl
    | some v =>
      have h2 := hE _ (by rw [hr]; exact fun hh => Option.noConfusion hh)
      rw [h2] at hfs
      exact absurd hfs (by simp)
  have hbr : importBranch fs bundleRec st (resolveImport fs dir (full, raw)) =
      some (st, BundleResult.mk (resolveImport fs dir (full, raw)).fullPath
        false none false none) := by
    unfold importBranch
    rw [if_pos hnf]
  rw [importStep_some, hbr]
  unfold substituteStep
  simp [hreg, hu, timesUsedOk]

/-- Witness for C8: `@import 'missing';` where neither candidate exists. -/
theorem C8_not_found_marker_and_untouched_counter_witness :
    (resolveImport exFsOnlyM "/p" (exMissImp, "missing")).found = false ∧
    importStep exFsOnlyM [] (fun _ _ _ => none) (some (LoopAcc.mk initState exMissImp []))
        (resolveImport exFsOnlyM "/p" (exMissImp, "missing")) =
      some (LoopAcc.mk initState
        (replaceFirst exMissImp (resolveImport exFsOnlyM "/p" (exMissImp, "missing")).importString
          (notFoundMarker (resolveImport exFsOnlyM "/p" (exMissImp, "missing")).importString))
        ([] ++ [BundleResult.mk (resolveImport exFsOnlyM "/p" (exMissImp, "missing")).fullPath
          false none false none])) := by
  refine ⟨by decide, ?_⟩
  exact C8_not_found_marker_and_untouched_counter exFsOnlyM []
    (fun _ _ _ => none) initState exMissImp [] "/p" "missing" exMissImp
    (by decide) (fun k hk => absurd (Eq.refl _) hk) (fun k hk => Bool.noConfusion hk)

/-- C9: an entry whose file cannot be accessed or read yields a Bundle Node
with that path and `found=false`, with no further processing (the engine
state is returned unchanged) and no exception; the other entries of the same
batch are unaffected: the batch result equals the result of the batch
without the failing entry, with the `found:false` node inserted at the
failing entry's position. -/
theorem C9_entry_failure_isolated (fs : List (String × String))
    (g : List String → Except String (List String)) (fuel : Nat) (st : BundlerState)
    (file : String) (d : List String) (xs ys : List String)
    (hmiss : fsRead fs file = none) :
    Bundle fs g fuel st file d =
      some (st, BundleResult.mk file false none false none) ∧
    BundleAll fs g fuel st (xs ++ file :: ys) d =
      (BundleAll fs g fuel st (xs ++ ys) d).map
        (fun pr => (pr.1,
          insertAtPos xs.length (BundleResult.mk file false none false none) pr.2)) :=
  ⟨Bundle_missing hmiss, BundleAll_insert_missing hmiss xs st ys⟩

/-- Witness for C9: a missing entry in front of a readable one. -/
theorem C9_entry_failure_isolated_witness :
    fsRead exFsSingle "/p/missing.scss" = none ∧
    Bundle exFsSingle exGlobEmpty 5 initState "/p/missing.scss" [] =
      some (initState, BundleResult.mk "/p/missing.scss" false none false none) ∧
    BundleAll exFsSingle exGlobEmpty 5 initState
        ["/p/missing.scss", "/p/m.scss"] [] =
      (BundleAll exFsSingle exGlobEmpty 5 initState ["/p/m.scss"] []).map
        (fun pr => (pr.1,
          insertAtPos 0
            (BundleResult.mk "/p/missing.scss" false none false none) pr.2)) := by
  refine ⟨by rfl, ?_, ?_⟩
  · exact (C9_entry_failure_isolated exFsSingle exGlobEmpty 5 initState
      "/p/missing.scss" [] [] ["/p/m.scss"] (by rfl)).1
  · exact (C9_entry_failure_isolated exFsSingle exGlobEmpty 5 initState
      "/p/missing.scss" [] [] ["/p/m.scss"] (by rfl)).2

/-- C10: only the single-quoted commented form is stripped before scanning;
a double-quoted commented directive is left in place, matched by the live
pattern, and resolved and substituted as if it were a live import (so the
bundled output of a file containing only `//@import "a";` is `//` followed
by the bundled content of `a.scss`). -/
theorem C10_double_quoted_comment_treated_as_live :
    stripCommented exSqContent = "" ∧
    stripCommented exDqContent = exDqContent ∧
    scanImports exDqContent = [("@import " ++ dqS ++ "a" ++ dqS ++ ";", "a")] ∧
    (Bundle exFsDq exGlobEmpty 10 initState "/p/m.scss" []).map
        (fun pr => pr.2.bundledContent) = some (some ("//" ++ ".a-rule")) := by
  refine ⟨by decide, by decide, by decide, by decide⟩
